import Mathlib

/-!
Shallow embedding of the quantitative core of the vantage-lite backend
(src/backend/app/backtest.py and the query validation in
src/backend/app/main.py).

Conventions of the embedding:
  - Python floats are modelled as exact rationals; the square root used by
    the volatility computation forces the risk-metric record into the reals.
  - Python round (banker rounding, half to even) is modelled exactly.
  - Calendar dates are modelled as integers counting days, with the value
    of date.today() passed in as an explicit parameter.
  - Python exceptions raised by the core are modelled with Except; the
    distinct raise sites of backtest.py are distinguished by the BtError
    constructors, matching the error taxonomy of the specification.
  - The yfinance fetch path (fetch_real_prices_yfinance, use_real=True) is
    an external collaborator that the specification places out of scope;
    run_dummy_backtest is modelled on its default use_real=False path.
-/

namespace VantageLite

/-- Banker rounding of a rational to an integer: round half to even,
as the Python builtin round does. -/
def pyRoundInt (q : ℚ) : ℤ :=
  if q - ⌊q⌋ < 1/2 then ⌊q⌋
  else if 1/2 < q - ⌊q⌋ then ⌊q⌋ + 1
  else if 2 ∣ ⌊q⌋ then ⌊q⌋ else ⌊q⌋ + 1

/-- Python round(x, 2) on rationals. -/
def round2 (q : ℚ) : ℚ := (pyRoundInt (q * 100) : ℚ) / 100

/-- Python round(x, 4) on rationals. -/
def round4 (q : ℚ) : ℚ := (pyRoundInt (q * 10000) : ℚ) / 10000

/-- Error kinds of the core, one per raise site of backtest.py.
The taxonomy follows section 7 of the specification. -/
inductive BtError where
  | invalidParameter (msg : String) : BtError
  | insufficientData (points window : ℕ) : BtError
deriving DecidableEq

/-- PricePointDict of backtest.py: a dated close. Dates are day numbers. -/
structure PricePoint where
  date : ℤ
  close : ℚ
deriving DecidableEq

/-- EquityPointDict of backtest.py: 1-based step and rounded equity. -/
structure EquityPoint where
  step : ℕ
  equity : ℚ
deriving DecidableEq

/-- Multiplicative factor applied to the running price at loop index i of
generate_dummy_prices: 1 + drift + noise with drift = 0.001 and
noise = ((i mod 5) - 2) * 0.0005. -/
def dummyFactor (i : ℕ) : ℚ := 1 + 1/1000 + (((i % 5 : ℕ) : ℚ) - 2) * (5/10000)

/-- Running (unrounded) price of generate_dummy_prices after i loop
iterations, starting from the base price 100.0. -/
def dummyPrice : ℕ → ℚ
  | 0 => 100
  | i + 1 => dummyPrice i * dummyFactor i

/-- List built by the loop of generate_dummy_prices: the i-th point carries
the date start_date + i with start_date = today - (days - 1), and the
running price after i+1 multiplications, rounded to 2 decimals. -/
def dummyPricesList (days : ℕ) (today : ℤ) : List PricePoint :=
  (List.range days).map fun (i : ℕ) =>
    { date := today - ((days : ℤ) - 1) + (i : ℤ)
      close := round2 (dummyPrice (i + 1)) }

/-- generate_dummy_prices of backtest.py. The symbol argument is unused, as
in the source. -/
def generate_dummy_prices (_symbol : String) (days : ℕ) (today : ℤ) :
    Except BtError (List PricePoint) :=
  if days < 5 then
    .error (.invalidParameter "days must be at least 5 for a useful backtest")
  else
    .ok (dummyPricesList days today)

/-- compute_buy_and_hold_return of backtest.py. -/
def compute_buy_and_hold_return (prices : List PricePoint) : ℚ :=
  let first := (prices.headD ⟨0, 0⟩).close
  let last := (prices.getLastD ⟨0, 0⟩).close
  if first ≤ 0 then 0 else round2 ((last / first - 1) * 100)

/-- Simple moving average used at loop index i of run_sma_strategy: the mean
of closes[i - window + 1 .. i], the slice closes[i-window+1 : i+1] of the
source (evaluated when window ≤ i + 1, so the natural subtraction is exact). -/
def smaAt (closes : List ℚ) (window i : ℕ) : ℚ :=
  ((closes.drop (i + 1 - window)).take window).sum / (window : ℚ)

/-- One iteration of the loop of run_sma_strategy on the state
(equity, position): the new position is decided from the SMA inclusive of
the close at index i (copying the old position while i < window - 1), and
the equity is compounded with the return of step i under the position that
was decided at the previous index, guarded by prev_price > 0. -/
def stratStep (closes : List ℚ) (window : ℕ) (st : ℚ × ℚ) (i : ℕ) : ℚ × ℚ :=
  let price := closes.getD i 0
  let newPosition :=
    if window ≤ i + 1 then (if smaAt closes window i < price then 1 else 0)
    else st.2
  let equity :=
    if 0 < i then
      let prevPrice := closes.getD (i - 1) 0
      if 0 < prevPrice then st.1 * (1 + st.2 * (price / prevPrice - 1))
      else st.1
    else st.1
  (equity, newPosition)

/-- State (equity, position) of the loop of run_sma_strategy after the
iteration for index i, starting from equity 1.0 and position 0.0. -/
def stratPairs (closes : List ℚ) (window : ℕ) : ℕ → ℚ × ℚ
  | 0 => stratStep closes window (1, 0) 0
  | i + 1 => stratStep closes window (stratPairs closes window i) (i + 1)

/-- Equity curve appended by the loop of run_sma_strategy: entry i is the
equity after the iteration for index i. -/
def smaCurve (closes : List ℚ) (window n : ℕ) : List ℚ :=
  (List.range n).map fun i => (stratPairs closes window i).1

/-- run_sma_strategy of backtest.py. -/
def run_sma_strategy (prices : List PricePoint) (window : ℕ) :
    Except BtError (List ℚ × ℚ) :=
  if window < 1 then .error (.invalidParameter "SMA window must be at least 1")
  else
    let closes := prices.map (·.close)
    let n := closes.length
    if n < window + 1 then .error (.insufficientData n window)
    else
      let equity_curve := smaCurve closes window n
      .ok (equity_curve, round2 ((equity_curve.getLastD 1 - 1) * 100))

/-- Position as claim C1 (and section 4.2 of the specification) words it:
long exactly when the close at step i strictly exceeds the SMA of the
window ending at and including step i, with positions before step
window - 1 equal to 0. Modelled from the spec for comparison with the
source embedding. -/
def claimedPosition (closes : List ℚ) (window i : ℕ) : ℚ :=
  if window ≤ i + 1 ∧ smaAt closes window i < closes.getD i 0 then 1 else 0

/-- Equity recurrence exactly as claim C1 words it: the position computed
from the SMA inclusive of the close of step i is applied to the return of
that same step i. Modelled from the spec for comparison with the source
embedding. -/
def claimedEquity (closes : List ℚ) (window : ℕ) : ℕ → ℚ
  | 0 => 1
  | i + 1 => claimedEquity closes window i *
      (1 + claimedPosition closes window (i + 1) *
        (closes.getD (i + 1) 0 / closes.getD i 0 - 1))

/-- Banker rounding on the reals, the carrier of the volatility and Sharpe
values (which involve a square root). -/
noncomputable def pyRoundIntR (x : ℝ) : ℤ :=
  if x - ⌊x⌋ < 1/2 then ⌊x⌋
  else if 1/2 < x - ⌊x⌋ then ⌊x⌋ + 1
  else if 2 ∣ ⌊x⌋ then ⌊x⌋ else ⌊x⌋ + 1

/-- Python round(x, 2) on reals. -/
noncomputable def round2R (x : ℝ) : ℝ := (pyRoundIntR (x * 100) : ℝ) / 100

/-- One iteration of the drawdown loop of compute_risk_metrics on the state
(peak, max_drawdown): the peak is raised first, then the drawdown at the
current point is compared with the running minimum. -/
def ddStep (st : ℚ × ℚ) (eq : ℚ) : ℚ × ℚ :=
  let peak := if st.1 < eq then eq else st.1
  let drawdown := eq / peak - 1
  (peak, if drawdown < st.2 then drawdown else st.2)

/-- Daily returns loop of compute_risk_metrics: cur/prev - 1 over
consecutive pairs, skipping pairs whose first entry is not positive. -/
def dailyReturns (curve : List ℚ) : List ℚ :=
  (List.range (curve.length - 1)).filterMap fun i =>
    let prev := curve.getD i 0
    if 0 < prev then some (curve.getD (i + 1) 0 / prev - 1) else none

/-- Result record of compute_risk_metrics. -/
structure RiskMetrics where
  max_drawdown_pct : ℚ
  volatility_pct : ℝ
  sharpe_like : ℝ

/-- compute_risk_metrics of backtest.py. The square root of the population
variance (var ** 0.5 in the source) is the real square root. -/
noncomputable def compute_risk_metrics (equity_curve : List ℚ) : RiskMetrics :=
  if equity_curve.length < 2 then ⟨0, 0, 0⟩
  else
    let max_drawdown := (equity_curve.foldl ddStep (equity_curve.headD 0, 0)).2
    let max_drawdown_pct := round2 (max_drawdown * 100)
    let returns := dailyReturns equity_curve
    if returns = [] then ⟨max_drawdown_pct, 0, 0⟩
    else
      let mean_ret := returns.sum / (returns.length : ℚ)
      let var := (returns.map fun r => (r - mean_ret) ^ 2).sum / (returns.length : ℚ)
      let vol : ℝ := Real.sqrt ((var : ℚ) : ℝ)
      ⟨max_drawdown_pct, round2R (vol * 100),
        if 0 < vol then round2R (((mean_ret : ℚ) : ℝ) / vol) else 0⟩

/-- BacktestResult of backtest.py (the record assembled by
run_dummy_backtest). -/
structure BacktestResult where
  symbol : String
  window : ℕ
  alt_window : ℕ
  days : ℕ
  buy_and_hold_return_pct : ℚ
  sma_strategy_return_pct : ℚ
  alt_sma_strategy_return_pct : ℚ
  num_points : ℕ
  prices : List PricePoint
  equity_curve : List EquityPoint
  max_drawdown_pct : ℚ
  volatility_pct : ℝ
  sharpe_like : ℝ

/-- run_dummy_backtest of backtest.py on its default use_real=False path
(the yfinance path is an out-of-scope external collaborator). -/
noncomputable def run_dummy_backtest (symbol : String)
    (window alt_window days : ℕ) (today : ℤ) : Except BtError BacktestResult :=
  if days < 5 ∨ 365 < days then
    .error (.invalidParameter "days must be between 5 and 365")
  else if window < 1 ∨ alt_window < 1 then
    .error (.invalidParameter "SMA windows must be at least 1")
  else do
    let prices ← generate_dummy_prices symbol days today
    let buy_and_hold_return_pct := compute_buy_and_hold_return prices
    let mainRes ← run_sma_strategy prices window
    let altRes ← run_sma_strategy prices alt_window
    let equity_curve_main := mainRes.1
    let risk := compute_risk_metrics equity_curve_main
    let equity_curve : List EquityPoint :=
      equity_curve_main.enum.map fun p => ⟨p.1 + 1, round4 p.2⟩
    .ok { symbol := symbol.toUpper
          window := window
          alt_window := alt_window
          days := days
          buy_and_hold_return_pct := buy_and_hold_return_pct
          sma_strategy_return_pct := mainRes.2
          alt_sma_strategy_return_pct := altRes.2
          num_points := prices.length
          prices := prices
          equity_curve := equity_curve
          max_drawdown_pct := risk.max_drawdown_pct
          volatility_pct := risk.volatility_pct
          sharpe_like := risk.sharpe_like }

/-! Basic facts about the rounding function. -/

theorem pyRoundInt_intCast (n : ℤ) : pyRoundInt (n : ℚ) = n := by
  simp [pyRoundInt]

theorem floor_le_pyRoundInt (q : ℚ) : ⌊q⌋ ≤ pyRoundInt q := by
  unfold pyRoundInt
  split
  · exact le_refl _
  · split
    · omega
    · split <;> omega

theorem pyRoundInt_le_floor_add_one (q : ℚ) : pyRoundInt q ≤ ⌊q⌋ + 1 := by
  unfold pyRoundInt
  split
  · omega
  · split
    · omega
    · split <;> omega

theorem pyRoundInt_nonpos {q : ℚ} (h : q ≤ 0) : pyRoundInt q ≤ 0 := by
  have hfl : ⌊q⌋ ≤ 0 := by
    have := Int.floor_le_floor h
    simpa using this
  rcases lt_or_eq_of_le hfl with hlt | heq
  · have := pyRoundInt_le_floor_add_one q
    omega
  · have hq0 : ⌊q⌋ = 0 := heq
    have hfr : q - ⌊q⌋ ≤ 0 := by
      rw [hq0]
      simpa using h
    unfold pyRoundInt
    have h1 : q - ⌊q⌋ < 1/2 := lt_of_le_of_lt hfr (by norm_num)
    rw [if_pos h1, hq0]

theorem pyRoundInt_nonneg {q : ℚ} (h : 0 ≤ q) : 0 ≤ pyRoundInt q := by
  have hfl : (0 : ℤ) ≤ ⌊q⌋ ∨ ⌊q⌋ = ⌊q⌋ := Or.inr rfl
  have hceil : 0 ≤ ⌊q⌋ ∨ ⌊q⌋ = -1 ∨ ⌊q⌋ < -1 := by omega
  rcases le_or_lt 0 ⌊q⌋ with hge | hlt
  · have := floor_le_pyRoundInt q
    omega
  · exfalso
    have : q < 0 := by
      have := Int.floor_le q
      have hle : (⌊q⌋ : ℚ) ≤ -1 + 0 := by
        have : ⌊q⌋ ≤ -1 := by omega
        exact_mod_cast by simpa using this
      nlinarith [Int.sub_one_lt_floor q]
    linarith

theorem pyRoundInt_ge {q : ℚ} {m : ℤ} (h : (m : ℚ) ≤ q) : m ≤ pyRoundInt q := by
  have : m ≤ ⌊q⌋ := Int.le_floor.mpr h
  have := floor_le_pyRoundInt q
  omega

theorem round2_zero : round2 0 = 0 := by
  simp [round2]
  have : pyRoundInt ((0 : ℤ) : ℚ) = 0 := pyRoundInt_intCast 0
  simpa using this

theorem round2_nonpos {q : ℚ} (h : q ≤ 0) : round2 q ≤ 0 := by
  unfold round2
  have h100 : q * 100 ≤ 0 := by nlinarith
  have := pyRoundInt_nonpos h100
  have hc : ((pyRoundInt (q * 100) : ℤ) : ℚ) ≤ 0 := by exact_mod_cast this
  linarith

theorem round2_ge_neg_hundred {q : ℚ} (h : (-100 : ℚ) ≤ q) : (-100 : ℚ) ≤ round2 q := by
  unfold round2
  have h100 : ((-10000 : ℤ) : ℚ) ≤ q * 100 := by push_cast; nlinarith
  have := pyRoundInt_ge h100
  have hc : ((-10000 : ℤ) : ℚ) ≤ ((pyRoundInt (q * 100) : ℤ) : ℚ) := by exact_mod_cast this
  push_cast at hc
  linarith

/-! Characterization of the loop state of run_sma_strategy. -/

theorem stratPairs_fst_zero (closes : List ℚ) (window : ℕ) :
    (stratPairs closes window 0).1 = 1 := by
  simp [stratPairs, stratStep]

theorem stratPairs_fst_succ (closes : List ℚ) (window i : ℕ) :
    (stratPairs closes window (i + 1)).1 =
      if 0 < closes.getD i 0 then
        (stratPairs closes window i).1 *
          (1 + (stratPairs closes window i).2 *
            (closes.getD (i + 1) 0 / closes.getD i 0 - 1))
      else (stratPairs closes window i).1 := by
  simp [stratPairs, stratStep]

theorem stratPairs_snd (closes : List ℚ) (window i : ℕ) :
    (stratPairs closes window i).2 =
      if window ≤ i + 1 then
        (if smaAt closes window i < closes.getD i 0 then 1 else 0)
      else 0 := by
  induction i with
  | zero => simp [stratPairs, stratStep]
  | succ i ih =>
      show (stratStep closes window (stratPairs closes window i) (i + 1)).2 = _
      unfold stratStep
      simp only
      by_cases h : window ≤ i + 1 + 1
      · simp [h]
      · have h' : ¬ window ≤ i + 1 := by omega
        simp [h, ih, h']

theorem stratPairs_fst_one (closes : List ℚ) (window : ℕ) :
    ∀ i, (∀ j, j < i → (stratPairs closes window j).2 = 0) →
      (stratPairs closes window i).1 = 1 := by
  intro i
  induction i with
  | zero => intro _; exact stratPairs_fst_zero closes window
  | succ i ih =>
      intro h
      have hi : (stratPairs closes window i).1 = 1 :=
        ih fun j hj => h j (by omega)
      have hp : (stratPairs closes window i).2 = 0 := h i (by omega)
      rw [stratPairs_fst_succ, hi, hp]
      split <;> ring

/-! Shape of the equity curve list. -/

theorem smaCurve_length (closes : List ℚ) (window n : ℕ) :
    (smaCurve closes window n).length = n := by
  simp [smaCurve]

theorem smaCurve_getD (closes : List ℚ) (window : ℕ) {n i : ℕ} (h : i < n) :
    (smaCurve closes window n).getD i 0 = (stratPairs closes window i).1 := by
  simp [smaCurve, List.getD_eq_getElem?_getD, List.getElem?_map,
    List.getElem?_range h]

theorem smaCurve_getLastD (closes : List ℚ) (window : ℕ) {n : ℕ} (h : 0 < n) :
    (smaCurve closes window n).getLastD 1 = (stratPairs closes window (n - 1)).1 := by
  have hlen : (smaCurve closes window n).length = n := smaCurve_length closes window n
  have hne : smaCurve closes window n ≠ [] := by
    intro hnil
    rw [hnil] at hlen
    simp at hlen
    omega
  rw [List.getLastD_eq_getLast?, List.getLast?_eq_getElem?]
  rw [hlen]
  have hlt : n - 1 < n := by omega
  have := smaCurve_getD closes window hlt
  rw [List.getD_eq_getElem?_getD] at this
  rcases hx : (smaCurve closes window n)[n - 1]? with _ | v
  · exfalso
    have hnone : (smaCurve closes window n).length ≤ n - 1 :=
      List.getElem?_eq_none_iff.mp hx
    omega
  · rw [hx] at this
    simp at this
    simp [this]

/-! Success and failure characterization of run_sma_strategy. -/

theorem run_sma_strategy_eq_ok (prices : List PricePoint) (window : ℕ)
    (hw : 1 ≤ window) (hn : window + 1 ≤ prices.length) :
    run_sma_strategy prices window =
      .ok (smaCurve (prices.map (·.close)) window prices.length,
        round2 (((smaCurve (prices.map (·.close)) window prices.length).getLastD 1 - 1)
          * 100)) := by
  unfold run_sma_strategy
  have h1 : ¬ window < 1 := by omega
  have h2 : ¬ (prices.map (·.close)).length < window + 1 := by
    simp only [List.length_map]
    omega
  simp only [h1, if_false, h2]
  simp [List.length_map]

theorem run_sma_strategy_insufficient (prices : List PricePoint) (window : ℕ)
    (hw : 1 ≤ window) (hn : prices.length < window + 1) :
    run_sma_strategy prices window =
      .error (.insufficientData prices.length window) := by
  unfold run_sma_strategy
  have h1 : ¬ window < 1 := by omega
  simp only [h1, if_false]
  simp [List.length_map, hn]

/-! List helpers. -/

theorem closes_getD_pos (prices : List PricePoint) {i : ℕ}
    (hpos : ∀ p ∈ prices, 0 < p.close) (h : i < prices.length) :
    0 < (prices.map (·.close)).getD i 0 := by
  have hlen : i < (prices.map (·.close)).length := by simpa using h
  rw [List.getD_eq_getElem _ _ hlen]
  rw [List.getElem_map]
  exact hpos _ (List.getElem_mem h)

theorem take_one_drop_sum (closes : List ℚ) :
    ∀ j, ((closes.drop j).take 1).sum = closes.getD j 0 := by
  induction closes with
  | nil => intro j; simp
  | cons c rest ih =>
      intro j
      cases j with
      | zero => simp
      | succ j => simpa using ih j

theorem sum_of_mem_eq {l : List ℚ} {c : ℚ} (h : ∀ x ∈ l, x = c) :
    l.sum = l.length * c := by
  induction l with
  | nil => simp
  | cons x rest ih =>
      have hx : x = c := h x (by simp)
      have hrest : ∀ y ∈ rest, y = c := fun y hy => h y (by simp [hy])
      simp [hx, ih hrest]
      ring

theorem smaAt_flat {closes : List ℚ} {c : ℚ} (hc : ∀ x ∈ closes, x = c)
    {window j : ℕ} (hw : 1 ≤ window) (hjw : window ≤ j + 1)
    (hjn : j < closes.length) : smaAt closes window j = c := by
  unfold smaAt
  set slice := (closes.drop (j + 1 - window)).take window with hslice
  have hmem : ∀ x ∈ slice, x = c := by
    intro x hx
    exact hc x (List.mem_of_mem_drop (List.mem_of_mem_take hx))
  have hlen : slice.length = window := by
    rw [hslice]
    rw [List.length_take, List.length_drop]
    omega
  rw [sum_of_mem_eq hmem, hlen]
  field_simp

theorem stratPairs_snd_flat {closes : List ℚ} {c : ℚ} (hc : ∀ x ∈ closes, x = c)
    {window : ℕ} (hw : 1 ≤ window) {j : ℕ} (hjn : j < closes.length) :
    (stratPairs closes window j).2 = 0 := by
  rw [stratPairs_snd]
  by_cases hjw : window ≤ j + 1
  · have hsma : smaAt closes window j = c := smaAt_flat hc hw hjw hjn
    have hgd : closes.getD j 0 = c := by
      rw [List.getD_eq_getElem _ _ hjn]
      exact hc _ (List.getElem_mem hjn)
    rw [if_pos hjw, hsma, hgd]
    simp
  · rw [if_neg hjw]

theorem stratPairs_snd_window_one (closes : List ℚ) (j : ℕ) :
    (stratPairs closes 1 j).2 = 0 := by
  rw [stratPairs_snd]
  have h1 : (1 : ℕ) ≤ j + 1 := by omega
  rw [if_pos h1]
  have hsma : smaAt closes 1 j = closes.getD j 0 := by
    unfold smaAt
    rw [take_one_drop_sum]
    simp
  rw [hsma]
  simp

theorem smaCurve_eq_replicate {closes : List ℚ} {window n : ℕ}
    (h : ∀ i, i < n → (stratPairs closes window i).1 = 1) :
    smaCurve closes window n = List.replicate n 1 := by
  have hmem : ∀ b ∈ smaCurve closes window n, b = 1 := by
    intro b hb
    unfold smaCurve at hb
    rcases List.mem_map.mp hb with ⟨i, hi, hib⟩
    rw [← hib]
    exact h i (List.mem_range.mp hi)
  have h2 := List.eq_replicate_of_mem hmem
  rwa [smaCurve_length] at h2

/-! Risk metrics on a constant unit equity curve. -/

theorem foldl_ddStep_replicate :
    ∀ m : ℕ, (List.replicate m (1 : ℚ)).foldl ddStep (1, 0) = (1, 0) := by
  intro m
  induction m with
  | zero => simp
  | succ m ih =>
      rw [List.replicate_succ, List.foldl_cons]
      have hstep : ddStep (1, 0) 1 = (1, 0) := by
        unfold ddStep
        norm_num
      rw [hstep, ih]

theorem getD_replicate_lt {n i : ℕ} {a d : ℚ} (h : i < n) :
    (List.replicate n a).getD i d = a := by
  have hlen : i < (List.replicate n a).length := by simpa using h
  rw [List.getD_eq_getElem _ _ hlen]
  simp

theorem filterMap_const_some {α β : Type} {f : α → Option β} {b : β} :
    ∀ {l : List α}, (∀ x ∈ l, f x = some b) →
      l.filterMap f = List.replicate l.length b := by
  intro l
  induction l with
  | nil => intro _; simp
  | cons x rest ih =>
      intro h
      rw [List.filterMap_cons, h x (by simp)]
      rw [ih fun y hy => h y (by simp [hy])]
      simp [List.replicate_succ]

theorem dailyReturns_replicate_one (n : ℕ) :
    dailyReturns (List.replicate n (1 : ℚ)) = List.replicate (n - 1) 0 := by
  unfold dailyReturns
  rw [List.length_replicate]
  have h : ∀ i ∈ List.range (n - 1),
      (fun i =>
        let prev := (List.replicate n (1 : ℚ)).getD i 0
        if 0 < prev then some ((List.replicate n (1 : ℚ)).getD (i + 1) 0 / prev - 1)
        else none) i = some 0 := by
    intro i hi
    have hilt : i < n - 1 := List.mem_range.mp hi
    simp only
    rw [getD_replicate_lt (by omega : i < n), getD_replicate_lt (by omega : i + 1 < n)]
    norm_num
  rw [filterMap_const_some h, List.length_range]

theorem pyRoundIntR_zero : pyRoundIntR 0 = 0 := by
  unfold pyRoundIntR
  norm_num

theorem round2R_zero : round2R 0 = 0 := by
  unfold round2R
  rw [show ((0 : ℝ) * 100) = 0 by ring, pyRoundIntR_zero]
  norm_num

theorem compute_risk_metrics_replicate_one {n : ℕ} (h : 2 ≤ n) :
    compute_risk_metrics (List.replicate n (1 : ℚ)) = ⟨0, 0, 0⟩ := by
  unfold compute_risk_metrics
  have hlen : ¬ (List.replicate n (1 : ℚ)).length < 2 := by simp; omega
  rw [if_neg hlen]
  have hhead : (List.replicate n (1 : ℚ)).headD 0 = 1 := by
    cases n with
    | zero => omega
    | succ m => simp [List.replicate_succ]
  rw [hhead, foldl_ddStep_replicate, dailyReturns_replicate_one]
  have hne : ¬ (List.replicate (n - 1) (0 : ℚ) = []) := by
    simp only [ne_eq, List.replicate_eq_nil_iff]
    omega
  simp only
  rw [if_neg hne]
  have hsum : (List.replicate (n - 1) (0 : ℚ)).sum = 0 := by simp
  have hmap : (List.replicate (n - 1) (0 : ℚ)).map
      (fun r => (r - (List.replicate (n - 1) (0 : ℚ)).sum /
        ((List.replicate (n - 1) (0 : ℚ)).length : ℚ)) ^ 2) =
      List.replicate (n - 1) 0 := by
    rw [hsum]
    simp
  rw [hmap]
  rw [hsum]
  have hvar : ((List.replicate (n - 1) (0 : ℚ)).sum /
      (((List.replicate (n - 1) (0 : ℚ)).length : ℕ) : ℚ)) = 0 := by
    rw [hsum]; simp
  simp only [hsum, List.length_replicate]
  norm_num
  constructor
  · exact round2_zero
  · exact round2R_zero

/-- Strategy run on a constant price series: the strict SMA condition never
triggers, so the equity curve is constantly 1 and the return is 0. -/
theorem run_sma_strategy_flat {prices : List PricePoint} {c : ℚ}
    (hc : ∀ p ∈ prices, p.close = c) {window : ℕ} (hw : 1 ≤ window)
    (hn : window + 1 ≤ prices.length) :
    run_sma_strategy prices window = .ok (List.replicate prices.length 1, 0) := by
  rw [run_sma_strategy_eq_ok prices window hw hn]
  have hc' : ∀ x ∈ prices.map (·.close), x = c := by
    intro x hx
    rcases List.mem_map.mp hx with ⟨p, hp, he⟩
    rw [← he]
    exact hc p hp
  have hfst : ∀ i, i < prices.length →
      (stratPairs (prices.map (·.close)) window i).1 = 1 := by
    intro i hi
    apply stratPairs_fst_one
    intro j hj
    apply stratPairs_snd_flat hc' hw
    simp only [List.length_map]
    omega
  have hn0 : 0 < prices.length := by omega
  have hlast : (smaCurve (prices.map (·.close)) window prices.length).getLastD 1 = 1 := by
    rw [smaCurve_getLastD _ _ hn0]
    exact hfst (prices.length - 1) (by omega)
  rw [hlast]
  rw [smaCurve_eq_replicate hfst]
  norm_num
  exact round2_zero

/-! Positivity of the synthetic price series. -/

theorem dummyFactor_ge_one (i : ℕ) : 1 ≤ dummyFactor i := by
  unfold dummyFactor
  have hk : (0 : ℚ) ≤ ((i % 5 : ℕ) : ℚ) := by positivity
  nlinarith

theorem dummyPrice_ge_hundred : ∀ i, (100 : ℚ) ≤ dummyPrice i := by
  intro i
  induction i with
  | zero => simp [dummyPrice]
  | succ i ih =>
      have hf := dummyFactor_ge_one i
      unfold dummyPrice
      nlinarith

theorem round2_pos_of_ge_hundred {q : ℚ} (h : 100 ≤ q) : 0 < round2 q := by
  unfold round2
  have h100 : ((10000 : ℤ) : ℚ) ≤ q * 100 := by push_cast; nlinarith
  have := pyRoundInt_ge h100
  have hc : ((10000 : ℤ) : ℚ) ≤ ((pyRoundInt (q * 100) : ℤ) : ℚ) := by exact_mod_cast this
  push_cast at hc
  linarith

/-- Invariant of the drawdown loop: over positive equity values, the peak
stays positive and the tracked minimum drawdown stays in the interval
(-1, 0]. -/
theorem ddFold_bounds :
    ∀ (l : List ℚ) (st : ℚ × ℚ), 0 < st.1 → -1 < st.2 → st.2 ≤ 0 →
      (∀ x ∈ l, 0 < x) →
      0 < (l.foldl ddStep st).1 ∧ -1 < (l.foldl ddStep st).2 ∧
        (l.foldl ddStep st).2 ≤ 0 := by
  intro l
  induction l with
  | nil =>
      intro st h1 h2 h3 _
      simpa using ⟨h1, h2, h3⟩
  | cons x rest ih =>
      intro st h1 h2 h3 hmem
      rw [List.foldl_cons]
      have hx : 0 < x := hmem x (by simp)
      have hpeak_pos : 0 < (if st.1 < x then x else st.1) := by
        split
        · exact hx
        · exact h1
      have hxle : x ≤ (if st.1 < x then x else st.1) := by
        split
        · exact le_refl x
        · exact le_of_not_lt (by assumption)
      have hdiv_pos : 0 < x / (if st.1 < x then x else st.1) :=
        div_pos hx hpeak_pos
      have hdiv_le : x / (if st.1 < x then x else st.1) ≤ 1 :=
        (div_le_one hpeak_pos).mpr hxle
      have hstep : ddStep st x =
          (if st.1 < x then x else st.1,
            if x / (if st.1 < x then x else st.1) - 1 < st.2
            then x / (if st.1 < x then x else st.1) - 1 else st.2) := rfl
      rw [hstep]
      apply ih
      · exact hpeak_pos
      · show -1 < (if x / (if st.1 < x then x else st.1) - 1 < st.2
            then x / (if st.1 < x then x else st.1) - 1 else st.2)
        by_cases hdd : x / (if st.1 < x then x else st.1) - 1 < st.2
        · rw [if_pos hdd]
          linarith
        · rw [if_neg hdd]
          exact h2
      · show (if x / (if st.1 < x then x else st.1) - 1 < st.2
            then x / (if st.1 < x then x else st.1) - 1 else st.2) ≤ 0
        by_cases hdd : x / (if st.1 < x then x else st.1) - 1 < st.2
        · rw [if_pos hdd]
          linarith
        · rw [if_neg hdd]
          exact h3
      · exact fun y hy => hmem y (by simp [hy])

/-- Extraction of the drawdown field of compute_risk_metrics for curves of
length at least 2 (the field does not depend on the daily-returns branch). -/
theorem compute_risk_metrics_mdd (curve : List ℚ) (h2 : 2 ≤ curve.length) :
    (compute_risk_metrics curve).max_drawdown_pct =
      round2 ((curve.foldl ddStep (curve.headD 0, 0)).2 * 100) := by
  unfold compute_risk_metrics
  rw [if_neg (by omega)]
  simp only
  split <;> rfl

/-! Inversion principles for the Except plumbing. -/

theorem except_ok_bind {ε α β : Type} (x : α) (f : α → Except ε β) :
    (Except.ok x >>= f) = f x := rfl

theorem except_error_bind {ε α β : Type} (e : ε) (f : α → Except ε β) :
    ((Except.error e : Except ε α) >>= f) = Except.error e := rfl

/-- Inversion of a successful run_sma_strategy call: success forces the
window and length preconditions and determines the curve and the return. -/
theorem run_sma_strategy_ok_inv {prices : List PricePoint} {window : ℕ}
    {curve : List ℚ} {ret : ℚ}
    (h : run_sma_strategy prices window = .ok (curve, ret)) :
    1 ≤ window ∧ window + 1 ≤ prices.length ∧
    curve = smaCurve (prices.map (·.close)) window prices.length ∧
    ret = round2 ((curve.getLastD 1 - 1) * 100) := by
  by_cases hw : window < 1
  · exfalso
    unfold run_sma_strategy at h
    rw [if_pos hw] at h
    exact Except.noConfusion h
  · by_cases hn : prices.length < window + 1
    · exfalso
      rw [run_sma_strategy_insufficient prices window (by omega) hn] at h
      exact Except.noConfusion h
    · have heq := run_sma_strategy_eq_ok prices window (by omega) (by omega)
      rw [heq] at h
      have hp : (smaCurve (prices.map (·.close)) window prices.length,
          round2 (((smaCurve (prices.map (·.close)) window prices.length).getLastD 1 - 1)
            * 100)) = (curve, ret) := Except.ok.inj h
      have hc : curve = smaCurve (prices.map (·.close)) window prices.length :=
        (congrArg Prod.fst hp).symm
      have hr : ret = round2 (((smaCurve (prices.map (·.close)) window
          prices.length).getLastD 1 - 1) * 100) := (congrArg Prod.snd hp).symm
      refine ⟨by omega, by omega, hc, ?_⟩
      rw [hr, hc]

/-- Errors of run_sma_strategy for a window of at least 1 are exactly the
insufficient-data error. -/
theorem run_sma_strategy_error_inv {prices : List PricePoint} {window : ℕ}
    {e : BtError} (hw : 1 ≤ window)
    (h : run_sma_strategy prices window = .error e) :
    e = .insufficientData prices.length window ∧ prices.length < window + 1 := by
  by_cases hn : prices.length < window + 1
  · rw [run_sma_strategy_insufficient prices window hw hn] at h
    have := Except.error.inj h
    exact ⟨this.symm, hn⟩
  · exfalso
    rw [run_sma_strategy_eq_ok prices window hw (by omega)] at h
    exact Except.noConfusion h

theorem dummyPricesList_length (days : ℕ) (today : ℤ) :
    (dummyPricesList days today).length = days := by
  simp [dummyPricesList]

theorem generate_dummy_prices_ok (symbol : String) (days : ℕ) (today : ℤ)
    (h : 5 ≤ days) :
    generate_dummy_prices symbol days today = .ok (dummyPricesList days today) := by
  unfold generate_dummy_prices
  rw [if_neg (by omega)]

/-- Out-of-range days short-circuit run_dummy_backtest with the days
validation error. -/
theorem run_dummy_backtest_invalid_days (symbol : String) (w a days : ℕ)
    (today : ℤ) (h : days < 5 ∨ 365 < days) :
    run_dummy_backtest symbol w a days today =
      .error (.invalidParameter "days must be between 5 and 365") := by
  unfold run_dummy_backtest
  rw [if_pos h]

/-- A window below 1 short-circuits run_dummy_backtest with the windows
validation error. -/
theorem run_dummy_backtest_invalid_window (symbol : String) (w a days : ℕ)
    (today : ℤ) (hd1 : 5 ≤ days) (hd2 : days ≤ 365) (h : w < 1 ∨ a < 1) :
    run_dummy_backtest symbol w a days today =
      .error (.invalidParameter "SMA windows must be at least 1") := by
  unfold run_dummy_backtest
  rw [if_neg (by omega : ¬ (days < 5 ∨ 365 < days))]
  rw [if_pos h]

/-- Full success characterization of run_dummy_backtest when every bound
holds. -/
theorem run_dummy_backtest_eq_ok (symbol : String) (w a days : ℕ) (today : ℤ)
    (hd1 : 5 ≤ days) (hd2 : days ≤ 365) (hw : 1 ≤ w) (ha : 1 ≤ a)
    (hwn : w + 1 ≤ days) (han : a + 1 ≤ days) :
    run_dummy_backtest symbol w a days today = .ok
      { symbol := symbol.toUpper
        window := w
        alt_window := a
        days := days
        buy_and_hold_return_pct := compute_buy_and_hold_return (dummyPricesList days today)
        sma_strategy_return_pct := round2
          (((smaCurve ((dummyPricesList days today).map (·.close)) w days).getLastD 1 - 1) * 100)
        alt_sma_strategy_return_pct := round2
          (((smaCurve ((dummyPricesList days today).map (·.close)) a days).getLastD 1 - 1) * 100)
        num_points := days
        prices := dummyPricesList days today
        equity_curve := (smaCurve ((dummyPricesList days today).map (·.close)) w days).enum.map
          (fun p => ⟨p.1 + 1, round4 p.2⟩)
        max_drawdown_pct := (compute_risk_metrics
          (smaCurve ((dummyPricesList days today).map (·.close)) w days)).max_drawdown_pct
        volatility_pct := (compute_risk_metrics
          (smaCurve ((dummyPricesList days today).map (·.close)) w days)).volatility_pct
        sharpe_like := (compute_risk_metrics
          (smaCurve ((dummyPricesList days today).map (·.close)) w days)).sharpe_like } := by
  unfold run_dummy_backtest
  rw [if_neg (by omega : ¬ (days < 5 ∨ 365 < days))]
  rw [if_neg (by omega : ¬ (w < 1 ∨ a < 1))]
  rw [generate_dummy_prices_ok symbol days today hd1, except_ok_bind]
  simp only
  rw [run_sma_strategy_eq_ok (dummyPricesList days today) w hw
    (by rw [dummyPricesList_length]; omega), except_ok_bind]
  simp only
  rw [run_sma_strategy_eq_ok (dummyPricesList days today) a ha
    (by rw [dummyPricesList_length]; omega), except_ok_bind]
  simp only [dummyPricesList_length]

/-- When the primary window needs more points than days provides, the
strategy engine error propagates out of run_dummy_backtest. -/
theorem run_dummy_backtest_insufficient_main (symbol : String) (w a days : ℕ)
    (today : ℤ) (hd1 : 5 ≤ days) (hd2 : days ≤ 365) (hw : 1 ≤ w) (ha : 1 ≤ a)
    (hwn : days < w + 1) :
    run_dummy_backtest symbol w a days today =
      .error (.insufficientData days w) := by
  unfold run_dummy_backtest
  rw [if_neg (by omega : ¬ (days < 5 ∨ 365 < days))]
  rw [if_neg (by omega : ¬ (w < 1 ∨ a < 1))]
  rw [generate_dummy_prices_ok symbol days today hd1, except_ok_bind]
  simp only
  rw [run_sma_strategy_insufficient (dummyPricesList days today) w hw
    (by rw [dummyPricesList_length]; omega), except_error_bind]
  rw [dummyPricesList_length]

/-- When only the alternate window lacks points, the alternate run fails
after the primary run succeeded. -/
theorem run_dummy_backtest_insufficient_alt (symbol : String) (w a days : ℕ)
    (today : ℤ) (hd1 : 5 ≤ days) (hd2 : days ≤ 365) (hw : 1 ≤ w) (ha : 1 ≤ a)
    (hwn : w + 1 ≤ days) (han : days < a + 1) :
    run_dummy_backtest symbol w a days today =
      .error (.insufficientData days a) := by
  unfold run_dummy_backtest
  rw [if_neg (by omega : ¬ (days < 5 ∨ 365 < days))]
  rw [if_neg (by omega : ¬ (w < 1 ∨ a < 1))]
  rw [generate_dummy_prices_ok symbol days today hd1, except_ok_bind]
  simp only
  rw [run_sma_strategy_eq_ok (dummyPricesList days today) w hw
    (by rw [dummyPricesList_length]; omega), except_ok_bind]
  simp only
  rw [run_sma_strategy_insufficient (dummyPricesList days today) a ha
    (by rw [dummyPricesList_length]; omega), except_error_bind]
  rw [dummyPricesList_length]

/-- Inversion of a successful run_dummy_backtest call: success forces all
bounds and determines the assembled record. -/
theorem run_dummy_backtest_ok_inv {symbol : String} {w a days : ℕ} {today : ℤ}
    {r : BacktestResult} (h : run_dummy_backtest symbol w a days today = .ok r) :
    5 ≤ days ∧ days ≤ 365 ∧ 1 ≤ w ∧ 1 ≤ a ∧ w + 1 ≤ days ∧ a + 1 ≤ days ∧
    r = { symbol := symbol.toUpper
          window := w
          alt_window := a
          days := days
          buy_and_hold_return_pct := compute_buy_and_hold_return (dummyPricesList days today)
          sma_strategy_return_pct := round2
            (((smaCurve ((dummyPricesList days today).map (·.close)) w days).getLastD 1 - 1) * 100)
          alt_sma_strategy_return_pct := round2
            (((smaCurve ((dummyPricesList days today).map (·.close)) a days).getLastD 1 - 1) * 100)
          num_points := days
          prices := dummyPricesList days today
          equity_curve := (smaCurve ((dummyPricesList days today).map (·.close)) w days).enum.map
            (fun p => ⟨p.1 + 1, round4 p.2⟩)
          max_drawdown_pct := (compute_risk_metrics
            (smaCurve ((dummyPricesList days today).map (·.close)) w days)).max_drawdown_pct
          volatility_pct := (compute_risk_metrics
            (smaCurve ((dummyPricesList days today).map (·.close)) w days)).volatility_pct
          sharpe_like := (compute_risk_metrics
            (smaCurve ((dummyPricesList days today).map (·.close)) w days)).sharpe_like } := by
  by_cases h1 : days < 5 ∨ 365 < days
  · rw [run_dummy_backtest_invalid_days symbol w a days today h1] at h
    exact Except.noConfusion h
  · by_cases h2 : w < 1 ∨ a < 1
    · rw [run_dummy_backtest_invalid_window symbol w a days today
        (by omega) (by omega) h2] at h
      exact Except.noConfusion h
    · by_cases h3 : days < w + 1
      · rw [run_dummy_backtest_insufficient_main symbol w a days today
          (by omega) (by omega) (by omega) (by omega) h3] at h
        exact Except.noConfusion h
      · by_cases h4 : days < a + 1
        · rw [run_dummy_backtest_insufficient_alt symbol w a days today
            (by omega) (by omega) (by omega) (by omega) (by omega) h4] at h
          exact Except.noConfusion h
        · rw [run_dummy_backtest_eq_ok symbol w a days today
            (by omega) (by omega) (by omega) (by omega) (by omega) (by omega)] at h
          have := Except.ok.inj h
          exact ⟨by omega, by omega, by omega, by omega, by omega, by omega, this.symm⟩

theorem round4_one : round4 1 = 1 := by
  unfold round4
  rw [show ((1 : ℚ) * 10000) = ((10000 : ℤ) : ℚ) by norm_num, pyRoundInt_intCast]
  norm_num

/-- Head of the assembled equity-point list: step 1 with the rounded head
of the raw curve. -/
theorem equity_points_getD_zero (curve : List ℚ) (h : 0 < curve.length) :
    ((curve.enum.map fun p => (⟨p.1 + 1, round4 p.2⟩ : EquityPoint)).getD 0 ⟨0, 0⟩)
      = ⟨1, round4 (curve.getD 0 0)⟩ := by
  cases curve with
  | nil => simp at h
  | cons c rest => simp [List.enum_cons]

/-- Steps of the assembled equity-point list are 1, 2, ..., length. -/
theorem equity_points_map_step (curve : List ℚ) :
    ((curve.enum.map fun p => (⟨p.1 + 1, round4 p.2⟩ : EquityPoint)).map
      EquityPoint.step) = List.range' 1 curve.length := by
  rw [List.map_map]
  rw [show (EquityPoint.step ∘ fun p : ℕ × ℚ => (⟨p.1 + 1, round4 p.2⟩ : EquityPoint))
      = ((· + 1) ∘ Prod.fst) from rfl]
  rw [← List.map_map, List.enum_map_fst]
  rw [List.range'_eq_map_range]
  apply List.map_congr_left
  intro i _
  omega

theorem getLastD_range_map {α : Type} (f : ℕ → α) (n : ℕ) (d : α) (h : 0 < n) :
    ((List.range n).map f).getLastD d = f (n - 1) := by
  have hlen : ((List.range n).map f).length = n := by simp
  rw [List.getLastD_eq_getLast?, List.getLast?_eq_getElem?, hlen]
  have hx : ((List.range n).map f)[n - 1]? = some (f (n - 1)) := by
    rw [List.getElem?_map, List.getElem?_range (by omega)]
    rfl
  rw [hx]
  rfl

/-- The loop position of run_sma_strategy coincides pointwise with the
position rule as the specification words it; the two runs differ only in
WHICH step the position is applied to. -/
theorem stratPairs_snd_eq_claimedPosition (closes : List ℚ) (window j : ℕ) :
    (stratPairs closes window j).2 = claimedPosition closes window j := by
  rw [stratPairs_snd]
  unfold claimedPosition
  by_cases hj : window ≤ j + 1
  · rw [if_pos hj]
    by_cases hlt : smaAt closes window j < closes.getD j 0
    · rw [if_pos hlt, if_pos ⟨hj, hlt⟩]
    · rw [if_neg hlt, if_neg (by tauto)]
  · rw [if_neg hj, if_neg (by tauto)]

/-! Claim theorems. -/

/-- C3: for every price list and window of at least 1, run_sma_strategy
fails with the insufficient-data error if and only if fewer than
window + 1 price points exist (equivalently, window is at least the number
of prices), and in that case it never returns a curve. -/
theorem C3_insufficient_data_iff (prices : List PricePoint) (window : ℕ)
    (hw : 1 ≤ window) :
    (run_sma_strategy prices window =
        .error (.insufficientData prices.length window) ↔
      prices.length < window + 1) ∧
    (prices.length < window + 1 →
      ∀ curve ret, run_sma_strategy prices window ≠ .ok (curve, ret)) := by
  constructor
  · constructor
    · intro h
      by_cases hn : prices.length < window + 1
      · exact hn
      · exfalso
        rw [run_sma_strategy_eq_ok prices window hw (by omega)] at h
        exact Except.noConfusion h
    · intro hn
      exact run_sma_strategy_insufficient prices window hw hn
  · intro hn curve ret hok
    have hinv := run_sma_strategy_ok_inv hok
    omega

/-- Witness for C3 at a one-point series with window 1. -/
theorem C3_insufficient_data_iff_witness :
    run_sma_strategy [⟨0, 1⟩] 1 = .error (.insufficientData 1 1) := by
  have h := (C3_insufficient_data_iff [⟨0, 1⟩] 1 (by norm_num)).1.mpr (by norm_num)
  simpa using h

/-- C4: on a price list long enough for the window but containing a
non-positive close, run_sma_strategy still succeeds with a full-length
curve, and every step whose previous close is non-positive contributes a
zero return (the equity is carried over unchanged). -/
theorem C4_degenerate_input_safe (prices : List PricePoint) (window : ℕ)
    (hw : 1 ≤ window) (hn : window + 1 ≤ prices.length)
    (hbad : ∃ p ∈ prices, p.close ≤ 0) :
    ∃ curve ret, run_sma_strategy prices window = .ok (curve, ret) ∧
      curve.length = prices.length ∧
      ∀ i, 1 ≤ i → i < prices.length →
        (prices.map (·.close)).getD (i - 1) 0 ≤ 0 →
        curve.getD i 0 = curve.getD (i - 1) 0 := by
  refine ⟨smaCurve (prices.map (·.close)) window prices.length, _,
    run_sma_strategy_eq_ok prices window hw hn, smaCurve_length _ _ _, ?_⟩
  intro i h1 h2 hnp
  obtain ⟨j, rfl⟩ : ∃ j, i = j + 1 := ⟨i - 1, by omega⟩
  simp only [Nat.add_sub_cancel] at hnp ⊢
  rw [smaCurve_getD _ _ h2, smaCurve_getD _ _ (by omega : j < prices.length)]
  rw [stratPairs_fst_succ]
  rw [if_neg (not_lt.mpr hnp)]

/-- Witness for C4 at a three-point series whose middle close is negative. -/
theorem C4_degenerate_input_safe_witness :
    ∃ curve ret,
      run_sma_strategy [⟨0, 1⟩, ⟨1, -1⟩, ⟨2, 2⟩] 1 = .ok (curve, ret) ∧
      curve.length = 3 ∧
      ∀ i, 1 ≤ i → i < 3 →
        (([⟨0, 1⟩, ⟨1, -1⟩, ⟨2, 2⟩] : List PricePoint).map (·.close)).getD (i - 1) 0 ≤ 0 →
        curve.getD i 0 = curve.getD (i - 1) 0 := by
  have h := C4_degenerate_input_safe [⟨0, 1⟩, ⟨1, -1⟩, ⟨2, 2⟩] 1
    (by norm_num) (by norm_num) ⟨⟨1, -1⟩, by norm_num, by norm_num⟩
  simpa using h

/-- C8: the raw equity curve returned by run_sma_strategy starts at exactly
1, and the first equity point of the assembled backtest record has equity
exactly 1, unchanged by the 4-decimal rounding. -/
theorem C8_equity_starts_at_one :
    (∀ (prices : List PricePoint) (window : ℕ) (curve : List ℚ) (ret : ℚ),
      run_sma_strategy prices window = .ok (curve, ret) →
      curve.getD 0 0 = 1) ∧
    (∀ (symbol : String) (w a days : ℕ) (today : ℤ) (r : BacktestResult),
      run_dummy_backtest symbol w a days today = .ok r →
      (r.equity_curve.getD 0 ⟨0, 0⟩).equity = 1) := by
  constructor
  · intro prices window curve ret hok
    obtain ⟨hw, hn, hc, -⟩ := run_sma_strategy_ok_inv hok
    rw [hc, smaCurve_getD _ _ (by omega : 0 < prices.length)]
    exact stratPairs_fst_zero _ _
  · intro symbol w a days today r hok
    obtain ⟨hd1, -, hw, -, hwn, -, hr⟩ := run_dummy_backtest_ok_inv hok
    rw [hr]
    show (((smaCurve ((dummyPricesList days today).map (·.close)) w days).enum.map
      (fun p => (⟨p.1 + 1, round4 p.2⟩ : EquityPoint))).getD 0 ⟨0, 0⟩).equity = 1
    rw [equity_points_getD_zero _ (by rw [smaCurve_length]; omega)]
    rw [smaCurve_getD _ _ (by omega : 0 < days), stratPairs_fst_zero]
    exact round4_one

/-- Witness for C8 at a concrete strategy run and a concrete backtest. -/
theorem C8_equity_starts_at_one_witness :
    ((run_sma_strategy [⟨0, 1⟩, ⟨1, 1⟩] 1).map fun p => p.1.getD 0 0) = .ok 1 ∧
    ((run_dummy_backtest "spy" 1 1 5 0).map
      fun r => (r.equity_curve.getD 0 ⟨0, 0⟩).equity) = .ok 1 := by
  constructor
  · have hrun := run_sma_strategy_eq_ok [⟨0, 1⟩, ⟨1, 1⟩] 1 (by norm_num) (by norm_num)
    have h := C8_equity_starts_at_one.1 [⟨0, 1⟩, ⟨1, 1⟩] 1 _ _ hrun
    rw [hrun]
    simp only [Except.map]
    rw [h]
  · have hrun := run_dummy_backtest_eq_ok "spy" 1 1 5 0 (by norm_num) (by norm_num)
      (by norm_num) (by norm_num) (by norm_num) (by norm_num)
    have h := C8_equity_starts_at_one.2 "spy" 1 1 5 0 _ hrun
    rw [hrun]
    simp only [Except.map]
    exact congrArg Except.ok h

/-- C9: with window 1 the SMA of the last close equals the close itself, so
the strict comparison never goes long; the curve is constantly 1 and the
total return is exactly 0. -/
theorem C9_window_one_never_long (prices : List PricePoint)
    (hn : 2 ≤ prices.length) :
    run_sma_strategy prices 1 = .ok (List.replicate prices.length 1, 0) ∧
    ∀ j, (stratPairs (prices.map (·.close)) 1 j).2 = 0 := by
  constructor
  · rw [run_sma_strategy_eq_ok prices 1 (le_refl 1) (by omega)]
    have hfst : ∀ i, i < prices.length →
        (stratPairs (prices.map (·.close)) 1 i).1 = 1 := by
      intro i _
      exact stratPairs_fst_one _ _ i fun j _ => stratPairs_snd_window_one _ j
    have hlast : (smaCurve (prices.map (·.close)) 1 prices.length).getLastD 1 = 1 := by
      rw [smaCurve_getLastD _ _ (by omega : 0 < prices.length)]
      exact hfst (prices.length - 1) (by omega)
    rw [hlast, smaCurve_eq_replicate hfst]
    norm_num
    exact round2_zero
  · exact fun j => stratPairs_snd_window_one _ j

/-- Witness for C9 at a strictly rising two-point series. -/
theorem C9_window_one_never_long_witness :
    run_sma_strategy [⟨0, 1⟩, ⟨1, 2⟩] 1 = .ok ([1, 1], 0) ∧
    ∀ j, (stratPairs [1, 2] 1 j).2 = 0 := by
  have h := C9_window_one_never_long [⟨0, 1⟩, ⟨1, 2⟩] (by norm_num)
  simpa [List.replicate] using h

/-- C10: a successful run_sma_strategy returns one equity value per price
point, and the assembled record numbers the equity points 1 through
len(prices) with num_points equal to len(prices). -/
theorem C10_curve_shape :
    (∀ (prices : List PricePoint) (window : ℕ) (curve : List ℚ) (ret : ℚ),
      run_sma_strategy prices window = .ok (curve, ret) →
      curve.length = prices.length) ∧
    (∀ (symbol : String) (w a days : ℕ) (today : ℤ) (r : BacktestResult),
      run_dummy_backtest symbol w a days today = .ok r →
      r.num_points = r.prices.length ∧
      r.equity_curve.length = r.prices.length ∧
      r.equity_curve.map EquityPoint.step = List.range' 1 r.prices.length) := by
  constructor
  · intro prices window curve ret hok
    obtain ⟨-, -, hc, -⟩ := run_sma_strategy_ok_inv hok
    rw [hc]
    exact smaCurve_length _ _ _
  · intro symbol w a days today r hok
    obtain ⟨-, -, -, -, -, -, hr⟩ := run_dummy_backtest_ok_inv hok
    rw [hr]
    refine ⟨by simp [dummyPricesList_length], ?_, ?_⟩
    · show ((smaCurve ((dummyPricesList days today).map (·.close)) w days).enum.map
        (fun p => (⟨p.1 + 1, round4 p.2⟩ : EquityPoint))).length = _
      simp [smaCurve_length, dummyPricesList_length]
    · show ((smaCurve ((dummyPricesList days today).map (·.close)) w days).enum.map
        (fun p => (⟨p.1 + 1, round4 p.2⟩ : EquityPoint))).map EquityPoint.step = _
      rw [equity_points_map_step, smaCurve_length, dummyPricesList_length]

/-- Witness for C10 at a concrete strategy run and a concrete backtest. -/
theorem C10_curve_shape_witness :
    ((run_sma_strategy [⟨0, 1⟩, ⟨1, 2⟩] 1).map fun p => p.1.length) = .ok 2 ∧
    ((run_dummy_backtest "spy" 1 1 5 0).map
      fun r => (r.num_points, r.equity_curve.map EquityPoint.step)) =
      .ok (5, [1, 2, 3, 4, 5]) := by
  constructor
  · have hrun := run_sma_strategy_eq_ok [⟨0, 1⟩, ⟨1, 2⟩] 1 (by norm_num) (by norm_num)
    have h := C10_curve_shape.1 [⟨0, 1⟩, ⟨1, 2⟩] 1 _ _ hrun
    rw [hrun]
    simp only [Except.map]
    rw [h]
    norm_num
  · have hrun := run_dummy_backtest_eq_ok "spy" 1 1 5 0 (by norm_num) (by norm_num)
      (by norm_num) (by norm_num) (by norm_num) (by norm_num)
    have h := C10_curve_shape.2 "spy" 1 1 5 0 _ hrun
    obtain ⟨-, -, h3⟩ := h
    rw [hrun]
    simp only [Except.map]
    refine congrArg Except.ok (Prod.ext rfl ?_)
    refine h3.trans ?_
    have hlen : (dummyPricesList 5 0).length = 5 := dummyPricesList_length 5 0
    show List.range' 1 (dummyPricesList 5 0).length = [1, 2, 3, 4, 5]
    rw [hlen]
    rfl

/-- C1 counterexample: on the series 1, 2, 1 with window 2 the code keeps
equity at 1 over step 1 (it applies the position decided at step 0, which
is 0), while the recurrence of the claim applies the position decided at
step 1 (which is 1, since 2 exceeds the SMA 3/2) to the same step and
would force equity 2. -/
theorem C1_counterexample :
    run_sma_strategy [⟨0, 1⟩, ⟨1, 2⟩, ⟨2, 1⟩] 2 = .ok ([1, 1, 1/2], -50) ∧
    claimedEquity [1, 2, 1] 2 1 = 2 ∧
    [(1 : ℚ), 1, 1/2].getD 1 0 ≠ claimedEquity [1, 2, 1] 2 1 := by
  have h2 : claimedEquity [1, 2, 1] 2 1 = 2 := by
    simp [claimedEquity, claimedPosition, smaAt]
    norm_num
  refine ⟨?_, h2, ?_⟩
  · simp [run_sma_strategy, smaCurve, stratPairs, stratStep, smaAt, round2,
      pyRoundInt, List.range_succ]
    norm_num [Int.fract]
  · rw [h2]
    norm_num

/-- C1 amended: the equity curve of run_sma_strategy satisfies the stated
recurrence with the position decided at step i - 1 (from the SMA inclusive
of the close of step i - 1) applied to the return of step i; positions
applied before step window are 0 and equity starts at 1. -/
theorem C1_amended_recurrence (prices : List PricePoint) (window : ℕ)
    (curve : List ℚ) (ret : ℚ) (hw : 1 ≤ window)
    (hpos : ∀ p ∈ prices, 0 < p.close)
    (heq : run_sma_strategy prices window = .ok (curve, ret)) :
    curve.getD 0 0 = 1 ∧
    ∀ i, 1 ≤ i → i < prices.length →
      curve.getD i 0 = curve.getD (i - 1) 0 *
        (1 + claimedPosition (prices.map (·.close)) window (i - 1) *
          ((prices.map (·.close)).getD i 0 /
            (prices.map (·.close)).getD (i - 1) 0 - 1)) := by
  obtain ⟨-, hn, hc, -⟩ := run_sma_strategy_ok_inv heq
  subst hc
  constructor
  · rw [smaCurve_getD _ _ (by omega : 0 < prices.length)]
    exact stratPairs_fst_zero _ _
  · intro i h1 h2
    obtain ⟨j, rfl⟩ : ∃ j, i = j + 1 := ⟨i - 1, by omega⟩
    simp only [Nat.add_sub_cancel]
    rw [smaCurve_getD _ _ h2, smaCurve_getD _ _ (by omega : j < prices.length)]
    rw [stratPairs_fst_succ]
    rw [if_pos (closes_getD_pos prices hpos (by omega : j < prices.length))]
    rw [stratPairs_snd_eq_claimedPosition]

/-- Witness for the amended C1 at the counterexample series. -/
theorem C1_amended_recurrence_witness :
    [(1 : ℚ), 1, 1/2].getD 0 0 = 1 ∧
    ∀ i, 1 ≤ i → i < 3 →
      [(1 : ℚ), 1, 1/2].getD i 0 = [(1 : ℚ), 1, 1/2].getD (i - 1) 0 *
        (1 + claimedPosition (([⟨0, 1⟩, ⟨1, 2⟩, ⟨2, 1⟩] : List PricePoint).map (·.close)) 2 (i - 1) *
          ((([⟨0, 1⟩, ⟨1, 2⟩, ⟨2, 1⟩] : List PricePoint).map (·.close)).getD i 0 /
            (([⟨0, 1⟩, ⟨1, 2⟩, ⟨2, 1⟩] : List PricePoint).map (·.close)).getD (i - 1) 0 - 1)) := by
  have hrun : run_sma_strategy [⟨0, 1⟩, ⟨1, 2⟩, ⟨2, 1⟩] 2 = .ok ([1, 1, 1/2], -50) := by
    simp [run_sma_strategy, smaCurve, stratPairs, stratStep, smaAt, round2,
      pyRoundInt, List.range_succ]
    norm_num [Int.fract]
  have h := C1_amended_recurrence [⟨0, 1⟩, ⟨1, 2⟩, ⟨2, 1⟩] 2 [1, 1, 1/2] (-50)
    (by norm_num) (by intro p hp; fin_cases hp <;> norm_num) hrun
  simpa using h

/-- C2 counterexample: on the curve 1, 1/2 the reported drawdown is the
signed value -50, not the absolute value 50 the claim asserts, so it is
not at least 0. -/
theorem C2_counterexample :
    (compute_risk_metrics [1, 1/2]).max_drawdown_pct = -50 ∧
    (compute_risk_metrics [1, 1/2]).max_drawdown_pct < 0 := by
  have hmdd := compute_risk_metrics_mdd [1, 1/2] (by norm_num)
  have hval : (compute_risk_metrics [1, 1/2]).max_drawdown_pct = -50 := by
    rw [hmdd]
    simp [List.foldl, ddStep, round2, pyRoundInt]
    norm_num [Int.fract]
  exact ⟨hval, by rw [hval]; norm_num⟩

/-- C2 amended: compute_risk_metrics reports max_drawdown_pct as the
signed, non-positive most negative value of equity/peak - 1 (in percent,
rounded to 2 decimals), so for all-positive curves it lies in [-100, 0]
rather than [0, 100]; it is 0 for curves with fewer than 2 points. -/
theorem C2_amended_drawdown_bounds (curve : List ℚ) :
    (curve.length < 2 → (compute_risk_metrics curve).max_drawdown_pct = 0) ∧
    (2 ≤ curve.length → (∀ x ∈ curve, 0 < x) →
      (compute_risk_metrics curve).max_drawdown_pct ≤ 0 ∧
      (-100 : ℚ) ≤ (compute_risk_metrics curve).max_drawdown_pct) := by
  constructor
  · intro h
    unfold compute_risk_metrics
    rw [if_pos h]
  · intro h2 hpos
    rw [compute_risk_metrics_mdd curve h2]
    have hhead : 0 < curve.headD 0 := by
      cases curve with
      | nil => simp at h2
      | cons x rest => exact hpos x (by simp)
    obtain ⟨-, hgt, hle⟩ :=
      ddFold_bounds curve (curve.headD 0, 0) hhead (by norm_num) (le_refl 0) hpos
    constructor
    · exact round2_nonpos (by nlinarith)
    · exact round2_ge_neg_hundred (by nlinarith)

/-- Witness for the amended C2 at the curve 1, 1/2. -/
theorem C2_amended_drawdown_bounds_witness :
    (compute_risk_metrics [1, 1/2]).max_drawdown_pct ≤ 0 ∧
    (-100 : ℚ) ≤ (compute_risk_metrics [1, 1/2]).max_drawdown_pct := by
  exact (C2_amended_drawdown_bounds [1, 1/2]).2 (by norm_num)
    (by intro x hx; fin_cases hx <;> norm_num)

/-- C5 counterexample: with window 101 (above the documented maximum of
100) and days 30 in range, run_dummy_backtest fails with the
insufficient-data error rather than either of its two parameter-validation
errors (its only invalid-parameter raise sites). -/
theorem C5_counterexample :
    run_dummy_backtest "AAPL" 101 10 30 0 = .error (.insufficientData 30 101) ∧
    run_dummy_backtest "AAPL" 101 10 30 0 ≠
      .error (.invalidParameter "days must be between 5 and 365") ∧
    run_dummy_backtest "AAPL" 101 10 30 0 ≠
      .error (.invalidParameter "SMA windows must be at least 1") := by
  have h := run_dummy_backtest_insufficient_main "AAPL" 101 10 30 0
    (by norm_num) (by norm_num) (by norm_num) (by norm_num) (by norm_num)
  refine ⟨h, ?_, ?_⟩
  · rw [h]
    intro hcontra
    exact BtError.noConfusion (Except.error.inj hcontra)
  · rw [h]
    intro hcontra
    exact BtError.noConfusion (Except.error.inj hcontra)

/-- C5 amended: run_dummy_backtest raises its parameter-validation error
exactly when days is outside [5, 365] or a window is below 1; the upper
bound of 100 on windows is enforced only by the query validation of the
HTTP layer, not inside run_dummy_backtest, and accepted parameters are
passed through unclamped. -/
theorem C5_amended_validation_iff (symbol : String) (w a days : ℕ) (today : ℤ) :
    ((∃ msg, run_dummy_backtest symbol w a days today =
        .error (.invalidParameter msg)) ↔
      (days < 5 ∨ 365 < days ∨ w < 1 ∨ a < 1)) ∧
    (∀ r, run_dummy_backtest symbol w a days today = .ok r →
      r.window = w ∧ r.alt_window = a ∧ r.days = days) := by
  constructor
  · constructor
    · rintro ⟨msg, hmsg⟩
      by_contra hno
      push_neg at hno
      obtain ⟨hd1, hd2, hw, ha⟩ := hno
      by_cases h3 : days < w + 1
      · rw [run_dummy_backtest_insufficient_main symbol w a days today
          (by omega) (by omega) (by omega) (by omega) h3] at hmsg
        exact BtError.noConfusion (Except.error.inj hmsg)
      · by_cases h4 : days < a + 1
        · rw [run_dummy_backtest_insufficient_alt symbol w a days today
            (by omega) (by omega) (by omega) (by omega) (by omega) h4] at hmsg
          exact BtError.noConfusion (Except.error.inj hmsg)
        · rw [run_dummy_backtest_eq_ok symbol w a days today
            (by omega) (by omega) (by omega) (by omega) (by omega) (by omega)] at hmsg
          exact Except.noConfusion hmsg
    · intro hbad
      by_cases h1 : days < 5 ∨ 365 < days
      · exact ⟨"days must be between 5 and 365",
          run_dummy_backtest_invalid_days symbol w a days today h1⟩
      · refine ⟨"SMA windows must be at least 1",
          run_dummy_backtest_invalid_window symbol w a days today
            (by omega) (by omega) (by omega)⟩
  · intro r hok
    obtain ⟨-, -, -, -, -, -, hr⟩ := run_dummy_backtest_ok_inv hok
    rw [hr]
    exact ⟨rfl, rfl, rfl⟩

/-- Witness for the amended C5: in-range parameters pass through unclamped. -/
theorem C5_amended_validation_iff_witness :
    ((run_dummy_backtest "IBM" 1 1 5 0).map
      fun r => (r.window, r.alt_window, r.days)) = .ok (1, 1, 5) := by
  have hrun := run_dummy_backtest_eq_ok "IBM" 1 1 5 0 (by norm_num) (by norm_num)
    (by norm_num) (by norm_num) (by norm_num) (by norm_num)
  obtain ⟨e1, e2, e3⟩ := (C5_amended_validation_iff "IBM" 1 1 5 0).2 _ hrun
  rw [hrun]
  simp only [Except.map, e1, e2, e3]

/-- C6: for days in [5, 365], generate_dummy_prices returns exactly days
points whose dates are consecutive (hence strictly increasing) and end
today, and whose closes are all strictly positive. -/
theorem C6_dummy_prices_shape (symbol : String) (days : ℕ) (today : ℤ)
    (h5 : 5 ≤ days) (h365 : days ≤ 365) :
    generate_dummy_prices symbol days today = .ok (dummyPricesList days today) ∧
    (dummyPricesList days today).length = days ∧
    List.Chain' (fun p q => p.date + 1 = q.date) (dummyPricesList days today) ∧
    ((dummyPricesList days today).getLastD ⟨0, 0⟩).date = today ∧
    ∀ p ∈ dummyPricesList days today, 0 < p.close := by
  refine ⟨generate_dummy_prices_ok symbol days today (by omega),
    dummyPricesList_length days today, ?_, ?_, ?_⟩
  · unfold dummyPricesList
    rw [List.chain'_map]
    rw [show days = (days - 1) + 1 by omega, List.chain'_range_succ]
    intro m hm
    simp only
    push_cast
    ring
  · unfold dummyPricesList
    rw [getLastD_range_map _ _ _ (by omega : 0 < days)]
    simp only
    have hcast : (((days - 1 : ℕ)) : ℤ) = (days : ℤ) - 1 := by omega
    rw [hcast]
    ring
  · intro p hp
    unfold dummyPricesList at hp
    rcases List.mem_map.mp hp with ⟨i, -, hip⟩
    rw [← hip]
    exact round2_pos_of_ge_hundred (dummyPrice_ge_hundred (i + 1))

/-- Witness for C6 at days 5 and today 0. -/
theorem C6_dummy_prices_shape_witness :
    generate_dummy_prices "msft" 5 0 = .ok (dummyPricesList 5 0) ∧
    (dummyPricesList 5 0).length = 5 ∧
    List.Chain' (fun p q => p.date + 1 = q.date) (dummyPricesList 5 0) ∧
    ((dummyPricesList 5 0).getLastD ⟨0, 0⟩).date = 0 ∧
    ∀ p ∈ dummyPricesList 5 0, 0 < p.close := by
  exact C6_dummy_prices_shape "msft" 5 0 (by norm_num) (by norm_num)

/-- C7: on a price series with all closes equal (and enough points for both
windows) each strategy run returns the constant unit curve with return
exactly 0, and the risk metrics on that curve are all exactly 0. -/
theorem C7_flat_series (prices : List PricePoint) (c : ℚ) (window alt_window : ℕ)
    (hc : ∀ p ∈ prices, p.close = c) (hw : 1 ≤ window) (ha : 1 ≤ alt_window)
    (hnw : window + 1 ≤ prices.length) (hna : alt_window + 1 ≤ prices.length) :
    run_sma_strategy prices window = .ok (List.replicate prices.length 1, 0) ∧
    run_sma_strategy prices alt_window = .ok (List.replicate prices.length 1, 0) ∧
    compute_risk_metrics (List.replicate prices.length 1) = ⟨0, 0, 0⟩ := by
  exact ⟨run_sma_strategy_flat hc hw hnw, run_sma_strategy_flat hc ha hna,
    compute_risk_metrics_replicate_one (by omega)⟩

/-- Witness for C7 at a constant three-point series with windows 2 and 1. -/
theorem C7_flat_series_witness :
    run_sma_strategy [⟨0, 5⟩, ⟨1, 5⟩, ⟨2, 5⟩] 2 = .ok ([1, 1, 1], 0) ∧
    run_sma_strategy [⟨0, 5⟩, ⟨1, 5⟩, ⟨2, 5⟩] 1 = .ok ([1, 1, 1], 0) ∧
    compute_risk_metrics [1, 1, 1] = ⟨0, 0, 0⟩ := by
  have h := C7_flat_series [⟨0, 5⟩, ⟨1, 5⟩, ⟨2, 5⟩] 5 2 1
    (by intro p hp; fin_cases hp <;> rfl) (by norm_num) (by norm_num)
    (by norm_num) (by norm_num)
  simpa using h

end VantageLite
